import Mathlib

/-!
Shallow embedding of the two numeric components of the `alospalsar_filter`
repository, together with theorems settling the frozen claims about them.

Embedded source files:
* `src/notebooks/utils.py` — `read_alospalsar_image`, the binary product reader.
* `src/notebooks/hann_window_alospalsar.py` — the frequency-domain Hann
  windowing pipeline (notebook cells at lines 140-141, 179-185, 205, 244-245).

Modelling conventions:
* Bytes of the input file are modelled as a total function `ℕ → ℕ` together
  with a file size; Python's `fp.seek`/`fp.read` semantics (reads truncated at
  end of file) are reproduced in `readBytes`.
* Python `int(bytes)` is modelled by `parseAsciiInt` (optional surrounding
  ASCII whitespace, optional sign, decimal digits); a `ValueError` from a
  failing parse and a `struct.error` from `struct.unpack` are the two failure
  kinds of the reader, collected in `PyErr`.  The spec's names map onto them:
  `FormatError` is `PyErr.valueError`, `TruncatedFileError` is
  `PyErr.structError`.
* The IEEE-754 big-endian 32-bit float decode performed by `struct.unpack
  (">…f", …)` is kept abstract: the reader is parametrised by a decode
  function `dec` receiving the four bytes of one float in file (big-endian)
  order.  Every claim about the reader concerns offsets, shapes and error
  paths, never the numeric value of a decoded float.
* Real and complex floating-point arithmetic of the filter is embedded as
  exact `ℝ`/`ℂ` arithmetic; `np.fft.fft`/`ifft` are embedded by their defining
  sums, `np.fft.fftshift` by the index rotation `np.roll(· , n/2)` it
  performs.
-/

open Complex Finset

/-- A binary file: its size in bytes and the byte value at each offset
(offsets at or beyond `size` never reach any result; reads stop at `size`). -/
structure FileData where
  size : ℕ
  byte : ℕ → ℕ

/-- Python `fp.seek(pos); fp.read(n)` on a binary file: returns the bytes at
offsets `pos, pos+1, …`, truncated at end of file (so fewer than `n` bytes —
possibly none — when the file is short). -/
def readBytes (f : FileData) (pos n : ℕ) : List ℕ :=
  (List.range (min n (f.size - pos))).map fun i => f.byte (pos + i)

/-- ASCII whitespace accepted (and stripped) by Python `int(bytes)`. -/
def isSpace (c : ℕ) : Bool :=
  decide (c = 32 ∨ c = 9 ∨ c = 10 ∨ c = 13 ∨ c = 11 ∨ c = 12)

/-- ASCII decimal digit `'0'..'9'`. -/
def isDigit (c : ℕ) : Bool :=
  decide (48 ≤ c ∧ c ≤ 57)

/-- Value of a string of ASCII decimal digits. -/
def digitsVal (ds : List ℕ) : ℕ :=
  ds.foldl (fun a c => 10 * a + (c - 48)) 0

/-- Python `int(bytes)`: strip surrounding ASCII whitespace, accept an
optional `+`/`-` sign followed by at least one decimal digit; `none` models
the `ValueError` raised otherwise.  (Python 3 additionally accepts underscore
digit grouping, which no claim exercises and which is not modelled.) -/
def parseAsciiInt (bs : List ℕ) : Option ℤ :=
  let t := ((bs.dropWhile isSpace).reverse.dropWhile isSpace).reverse
  let sd : ℤ × List ℕ :=
    match t with
    | 43 :: r => (1, r)
    | 45 :: r => (-1, r)
    | r => (1, r)
  if sd.2 ≠ [] ∧ sd.2.all isDigit then some (sd.1 * digitsVal sd.2) else none

/-- The two Python exception kinds the reader can raise.  The spec's
`FormatError` is the `ValueError` from `int()` (`valueError` here); the spec's
`TruncatedFileError` is the `struct.error` from `struct.unpack` on a short
buffer (`structError` here). -/
inductive PyErr where
  | valueError
  | structError
deriving DecidableEq

/-- A complex matrix: row and column counts plus a total entry function
(entries outside the stated bounds are irrelevant junk values). -/
structure CMatrix where
  rows : ℕ
  cols : ℕ
  entry : ℕ → ℕ → ℂ

/-- File-handle operations performed by the reader, recorded in order:
`opn` models `open(file_path, mode="rb")`, `seek p` models `fp.seek(p)`,
`read n` models `fp.read(n)` (argument as passed), `close` would model
`fp.close()` or the implicit close of a `with` block. -/
inductive FOp where
  | opn
  | seek (pos : ℕ)
  | read (n : ℤ)
  | close
deriving DecidableEq

/-- The floats produced by `struct.unpack(">…f", fp.read(nrec * nline))` after
`fp.seek(720)`: float `j` is decoded (by the abstract big-endian float32
decoder `dec`) from the four bytes at offsets `720 + 4j, …, 720 + 4j + 3`, in
file order. -/
def fltAt (dec : ℕ → ℕ → ℕ → ℕ → ℝ) (b : ℕ → ℕ) (j : ℕ) : ℝ :=
  dec (b (720 + 4 * j)) (b (720 + 4 * j + 1)) (b (720 + 4 * j + 2)) (b (720 + 4 * j + 3))

/-- Faithful translation of `read_alospalsar_image` (src/notebooks/utils.py,
lines 5-24), returning both the ordered list of file-handle operations it
performs and its result (the returned matrix, or the Python exception that
propagates out).

Line-by-line correspondence:
* `fp = open(file_path, "rb")` — the `FOp.opn` event; note the source never
  calls `fp.close()` and uses no `with` block, so no `FOp.close` ever occurs.
* `fp.seek(248); npixel = int(fp.read(8))` — parse of `readBytes f 248 8`;
  a failed parse raises `ValueError` and the function exits.
* `fp.seek(236)` — a dead seek: nothing is read at offset 236.
* `nrec = 412 + npixel * 8`, `nline = 18432`.
* `fp.seek(720); data = struct.unpack(">%sf" % int(nrec*nline/4),
  fp.read(nrec*nline))` — `struct.error` when the count is negative (bad
  format string) or the buffer returned by `read` is shorter than
  `nrec * nline` bytes (the file has fewer than `nrec * nline` bytes after
  offset 720); `nrec * nline` is always a multiple of 4 since
  `nrec = 412 + 8·npixel ≡ 0 (mod 4)`.
* `data.reshape(-1, int(nrec/4))` then `data[:, 103:]` then
  `data[:, ::2] + 1j * data[:, 1::2]` — realised by index arithmetic: the
  reshaped array has `nrec/4` columns, row `i` column `c` holding float
  `i * (nrec/4) + c`; dropping the 103 prefix columns and deinterleaving
  makes complex entry `(i, k)` pair float `i*(nrec/4) + 103 + 2k` (real part)
  with float `i*(nrec/4) + 103 + 2k + 1` (imaginary part). -/
def readerRun (dec : ℕ → ℕ → ℕ → ℕ → ℝ) (f : FileData) :
    List FOp × Except PyErr CMatrix :=
  let ops0 : List FOp := [FOp.opn, FOp.seek 248, FOp.read 8]
  match parseAsciiInt (readBytes f 248 8) with
  | none => (ops0, Except.error PyErr.valueError)
  | some npixel =>
    let nrec : ℤ := 412 + npixel * 8
    let nline : ℤ := 18432
    let ops1 : List FOp := ops0 ++ [FOp.seek 236, FOp.seek 720, FOp.read (nrec * nline)]
    if nrec * nline < 0 then
      (ops1, Except.error PyErr.structError)
    else if ((f.size - 720 : ℕ) : ℤ) < nrec * nline then
      (ops1, Except.error PyErr.structError)
    else
      let ncols : ℕ := nrec.toNat / 4
      (ops1, Except.ok
        { rows := 18432
          cols := (ncols - 103) / 2
          entry := fun i k =>
            (fltAt dec f.byte (i * ncols + 103 + 2 * k) : ℝ) +
              (fltAt dec f.byte (i * ncols + 103 + 2 * k + 1) : ℝ) * Complex.I })

/-- The value/exception part of `read_alospalsar_image`. -/
def read_alospalsar_image (dec : ℕ → ℕ → ℕ → ℕ → ℝ) (f : FileData) :
    Except PyErr CMatrix :=
  (readerRun dec f).2

/-- A trivial stand-in float decoder, used only to instantiate theorems at
concrete inputs. -/
def dec0 : ℕ → ℕ → ℕ → ℕ → ℝ := fun _ _ _ _ => 0

/-- The empty file. -/
def fEmpty : FileData := ⟨0, fun _ => 0⟩

/-- The empty file with a (never readable) different byte planted at offset
236. -/
def fEmpty' : FileData := ⟨0, fun i => if i = 236 then 9 else 0⟩

/-- A file that is all ASCII `'0'` and ends right at the data start offset
720: its pixel-count field parses to 0, but none of the `412 * 18432` payload
bytes are present. -/
def fTrunc : FileData := ⟨720, fun _ => 48⟩

/-- A file whose pixel-count field at offset 248 is `"00000000"` but whose
bytes at offsets 236-243 are ASCII `'A'` (unparseable as an integer), with a
complete `412 * 18432`-byte payload after offset 720. -/
def fGood : FileData :=
  ⟨720 + 412 * 18432, fun i => if 248 ≤ i ∧ i < 256 then 48 else 65⟩

/-- A complete well-formed file with pixel-count field `"00000001"` and a full
`(412 + 8) * 18432`-byte payload. -/
def fGood1 : FileData :=
  ⟨720 + 420 * 18432, fun i => if i = 255 then 49 else 48⟩

/-! ### The spectral window filter

Embedding of the notebook pipeline (src/notebooks/hann_window_alospalsar.py):

    n_fft = 16384                                                  -- line 140
    slc_fft = np.fft.fftshift(np.fft.fft(slc, n=n_fft, axis=1), axes=1)  -- 141
    hann_window = np.zeros(n_fft)                                  -- 179-185
    hann_window[n_fft/4 : n_fft/4 + n_fft/2] = windows.hann(n_fft/2)
    slc_fft_filtered = slc_fft * hann_window[None, :]              -- line 205
    slc_filtered = np.fft.ifft(slc_fft_filtered)[:, :n_pixels]     -- 244-245

The per-row operations are embedded for an arbitrary transform size `n`
(generalising the notebook's hard-coded `n_fft = 16384`, as the claims
quantify over `fft_size`) and an arbitrary mask vector `w` (the notebook
instantiates `w` with `hann_window`; one claim replaces it by an all-ones
vector). -/

/-- Unit phasor `exp (2 π i t / n)`: the `t`-th power of the primitive `n`-th
root of unity used by the discrete Fourier transform pair. -/
noncomputable def expw (n : ℕ) (t : ℤ) : ℂ :=
  Complex.exp (2 * Real.pi * Complex.I * t / n)

/-- Row padding/truncation performed by `np.fft.fft(x, n=n_fft)`: positions
beyond the row's `px` stored samples read as zero; when `n < px` only the
first `n` samples enter the transform (the transform sums below only evaluate
indices `< n`). -/
def rowPad (px : ℕ) (x : ℕ → ℂ) (j : ℕ) : ℂ :=
  if j < px then x j else 0

/-- Forward DFT computed by `np.fft.fft(·, n)`:
`X k = ∑_{j<n} x j · exp (-2 π i j k / n)`. -/
noncomputable def dft (n : ℕ) (x : ℕ → ℂ) (k : ℕ) : ℂ :=
  ∑ j ∈ range n, x j * expw n (-(j * k : ℤ))

/-- Inverse DFT computed by `np.fft.ifft(·)` on a length-`n` vector:
`x m = (∑_{k<n} X k · exp (2 π i k m / n)) / n`. -/
noncomputable def idft (n : ℕ) (X : ℕ → ℂ) (m : ℕ) : ℂ :=
  (∑ k ∈ range n, X k * expw n (k * m : ℤ)) / n

/-- Index map of `np.fft.fftshift` on a length-`n` axis: the shift is
`np.roll(·, n/2)`, so output index `k` reads input index `(k - n/2) mod n`,
written here as `(k + (n - n/2)) % n`. -/
def fftshift_idx (n k : ℕ) : ℕ :=
  (k + (n - n / 2)) % n

/-- Index map of `np.fft.ifftshift` (`np.roll(·, -(n/2))`), the inverse of
`fftshift_idx`: output index `k` reads input index `(k + n/2) mod n`.  The
source never applies it; it appears only in the spec-side pipeline below. -/
def ifftshift_idx (n k : ℕ) : ℕ :=
  (k + n / 2) % n

/-- Value `k` of `scipy.signal.windows.hann(M)` (symmetric Hann window):
`0.5 - 0.5·cos(2 π k / (M - 1))`, with scipy's small-window guard returning
all ones for `M ≤ 1`. -/
noncomputable def hannCoef (M k : ℕ) : ℝ :=
  if M ≤ 1 then 1 else 0.5 - 0.5 * Real.cos (2 * Real.pi * k / ((M : ℝ) - 1))

/-- The notebook's window vector (lines 179-185): a length-`n` zero vector
whose middle half `[n/4, n/4 + n/2)` holds `windows.hann(n/2)`.  Indices at
`n` and beyond (outside the numpy array) read as zero. -/
noncomputable def hannWindowVec (n : ℕ) (k : ℕ) : ℝ :=
  if n / 4 ≤ k ∧ k < n / 4 + n / 2 then hannCoef (n / 2) (k - n / 4) else 0

/-- One row of the notebook pipeline exactly as implemented: forward DFT of
the padded row, `fftshift`, multiply by the mask `w`, then inverse DFT applied
directly to the still-shifted masked spectrum (the source contains no
`ifftshift`).  `m` ranges over output sample indices; the notebook keeps
`m < px`. -/
noncomputable def bandlimit_row (w : ℕ → ℝ) (n px : ℕ) (x : ℕ → ℂ) (m : ℕ) : ℂ :=
  idft n (fun k => (w k : ℝ) * dft n (rowPad px x) (fftshift_idx n k)) m

/-- Modelled from the spec (§4.2 step 4): the same row pipeline but with the
center-shift undone (`ifftshift`) before the inverse transform, so the
inverse operates on the masked spectrum in its original, unshifted frequency
order.  This definition follows the spec's words and exists only to be
compared with `bandlimit_row`, the pipeline the source implements. -/
noncomputable def bandlimit_row_spec (w : ℕ → ℝ) (n px : ℕ) (x : ℕ → ℂ) (m : ℕ) : ℂ :=
  idft n
    (fun k =>
      (fun k' => (w k' : ℝ) * dft n (rowPad px x) (fftshift_idx n k'))
        (ifftshift_idx n k)) m

/-- The whole-matrix filter of the notebook, generalised over `fft_size`:
per-row `bandlimit_row` with the `hannWindowVec` mask, rows processed
independently, output truncated to the first `px` columns
(`slc_filtered[:, :n_pixels]`, giving `min px fft_size` columns when
`fft_size < px`).  `np.fft.fft` raises `ValueError` for `n=0` ("invalid
number of FFT data points"), the only failure the pipeline can produce; the
source itself contains no parameter validation and no
`InvalidParameterError`. -/
noncomputable def apply_band_limit_window (n_fft : ℕ) (M : CMatrix) : Except PyErr CMatrix :=
  if n_fft = 0 then Except.error PyErr.valueError
  else
    Except.ok
      { rows := M.rows
        cols := min M.cols n_fft
        entry := fun i m => bandlimit_row (hannWindowVec n_fft) n_fft M.cols (M.entry i) m }

/-- Concrete one-sample-impulse row `[0, 1, 0, 0, …]`, used to instantiate
theorems and counterexamples. -/
def xImp : ℕ → ℂ := fun j => if j = 1 then 1 else 0

/-- Concrete 1 × 4 zero matrix, used to instantiate theorems at concrete
inputs. -/
def M14 : CMatrix := ⟨1, 4, fun _ _ => 0⟩

/-! ### Root-of-unity algebra for the DFT pair -/

/-- The phasor at exponent 0 is 1. -/
theorem expw_zero (n : ℕ) : expw n 0 = 1 := by
  simp [expw]

/-- Phasor exponents add. -/
theorem expw_add (n : ℕ) (a b : ℤ) : expw n (a + b) = expw n a * expw n b := by
  rw [expw, expw, expw, ← Complex.exp_add]
  congr 1
  push_cast
  ring

/-- A full multiple of `n` in the exponent gives the trivial phasor. -/
theorem expw_nmul (n : ℕ) (t : ℤ) : expw n ((n : ℤ) * t) = 1 := by
  rcases Nat.eq_zero_or_pos n with h0 | h0
  · subst h0; simp [expw]
  · rw [expw]
    have hn : (n : ℂ) ≠ 0 := Nat.cast_ne_zero.mpr h0.ne'
    have harg : 2 * (Real.pi : ℂ) * Complex.I * (((n : ℤ) * t : ℤ) : ℂ) / (n : ℂ)
        = (t : ℂ) * (2 * Real.pi * Complex.I) := by
      push_cast
      field_simp
      ring
    rw [harg]
    exact Complex.exp_int_mul_two_pi_mul_I t

/-- Phasors whose exponents differ by a multiple of `n` coincide. -/
theorem expw_congr {n : ℕ} {a b : ℤ} (h : (n : ℤ) ∣ (a - b)) :
    expw n a = expw n b := by
  rcases h with ⟨t, ht⟩
  have ha : a = b + (n : ℤ) * t := by linarith
  rw [ha, expw_add, expw_nmul, mul_one]

/-- Powers of a phasor multiply the exponent. -/
theorem expw_pow (n : ℕ) (d : ℤ) (k : ℕ) : expw n d ^ k = expw n ((k : ℤ) * d) := by
  rw [expw, expw, ← Complex.exp_nat_mul]
  congr 1
  push_cast
  ring

/-- The phasor is trivial exactly on multiples of `n`. -/
theorem expw_eq_one_iff {n : ℕ} (hn : 0 < n) {d : ℤ} :
    expw n d = 1 ↔ (n : ℤ) ∣ d := by
  have hn' : (n : ℂ) ≠ 0 := Nat.cast_ne_zero.mpr hn.ne'
  have hne : (2 * (Real.pi : ℂ) * Complex.I) ≠ 0 := by
    simp [Real.pi_ne_zero, Complex.I_ne_zero]
  constructor
  · intro h
    rw [expw, show 2 * (Real.pi : ℂ) * Complex.I * (d : ℂ) / (n : ℂ)
        = ((d : ℂ) / n) * (2 * Real.pi * Complex.I) by ring] at h
    rcases Complex.exp_eq_one_iff.mp h with ⟨m, hm⟩
    have h2 : (d : ℂ) / n = (m : ℂ) := mul_right_cancel₀ hne hm
    have h3 : (d : ℂ) = (m : ℂ) * n := by
      rw [div_eq_iff hn'] at h2; exact h2
    have h4 : d = m * n := by exact_mod_cast h3
    exact ⟨m, by linarith⟩
  · rintro ⟨t, ht⟩
    rw [ht]
    exact expw_nmul n t

/-- Orthogonality of the DFT characters: summing a phasor over one full
period yields `n` on multiples of `n` and 0 otherwise. -/
theorem sum_expw_orth (n : ℕ) (hn : 0 < n) (d : ℤ) :
    ∑ k ∈ range n, expw n ((k : ℤ) * d) = if (n : ℤ) ∣ d then (n : ℂ) else 0 := by
  by_cases h : (n : ℤ) ∣ d
  · rw [if_pos h]
    rcases h with ⟨t, ht⟩
    have h1 : ∀ k ∈ range n, expw n ((k : ℤ) * d) = 1 := by
      intro k _
      rw [ht, show ((k : ℤ) * ((n : ℤ) * t)) = (n : ℤ) * ((k : ℤ) * t) by ring]
      exact expw_nmul n ((k : ℤ) * t)
    rw [Finset.sum_congr rfl h1]
    simp
  · rw [if_neg h]
    have hz1 : expw n d ≠ 1 := fun hc => h ((expw_eq_one_iff hn).mp hc)
    have hterm : ∀ k ∈ range n, expw n ((k : ℤ) * d) = expw n d ^ k :=
      fun k _ => (expw_pow n d k).symm
    rw [Finset.sum_congr rfl hterm, geom_sum_eq hz1, expw_pow n d n, expw_nmul n d]
    simp

/-- DFT inversion: `np.fft.ifft` undoes `np.fft.fft` on each of the first `n`
samples (over exact complex arithmetic). -/
theorem idft_dft (n : ℕ) (x : ℕ → ℂ) (m : ℕ) (hm : m < n) :
    idft n (dft n x) m = x m := by
  have hn : 0 < n := lt_of_le_of_lt (Nat.zero_le m) hm
  rw [idft]
  have h1 : ∀ k ∈ range n, dft n x k * expw n ((k : ℤ) * m)
      = ∑ j ∈ range n, x j * expw n ((k : ℤ) * ((m : ℤ) - j)) := by
    intro k _
    rw [dft, Finset.sum_mul]
    refine Finset.sum_congr rfl fun j _ => ?_
    rw [mul_assoc, ← expw_add]
    congr 1
    ring_nf
  rw [Finset.sum_congr rfl h1, Finset.sum_comm]
  have h2 : ∀ j ∈ range n, (∑ k ∈ range n, x j * expw n ((k : ℤ) * ((m : ℤ) - j)))
      = x j * if (n : ℤ) ∣ ((m : ℤ) - j) then (n : ℂ) else 0 := by
    intro j _
    rw [← Finset.mul_sum, sum_expw_orth n hn ((m : ℤ) - j)]
  rw [Finset.sum_congr rfl h2]
  have h3 : ∀ j ∈ range n, (x j * if (n : ℤ) ∣ ((m : ℤ) - j) then (n : ℂ) else 0)
      = if j = m then x j * n else 0 := by
    intro j hj
    have hjn : j < n := Finset.mem_range.mp hj
    by_cases hd : (n : ℤ) ∣ ((m : ℤ) - j)
    · have hjm : j = m := by
        rcases hd with ⟨t, ht⟩
        have hn' : (0 : ℤ) < n := by exact_mod_cast hn
        have hb1 : -(n : ℤ) < (m : ℤ) - j := by omega
        have hb2 : ((m : ℤ) - j) < n := by omega
        rw [ht] at hb1 hb2
        have ht0 : t = 0 := by
          rcases lt_trichotomy t 0 with hlt | he | hgt
          · nlinarith
          · exact he
          · nlinarith
        rw [ht0, mul_zero] at ht
        omega
      rw [if_pos hd, if_pos hjm]
    · have hne : j ≠ m := fun he => hd (he ▸ ⟨0, by omega⟩)
      rw [if_neg hd, if_neg hne, mul_zero]
  rw [Finset.sum_congr rfl h3, Finset.sum_ite_eq' (range n) m (fun j => x j * n),
    if_pos (Finset.mem_range.mpr hm)]
  have hn' : (n : ℂ) ≠ 0 := Nat.cast_ne_zero.mpr hn.ne'
  field_simp

/-- Left inverse for the index rotation `k ↦ (k + c) % n`. -/
theorem rot_left_inv (n c k : ℕ) (hn : 0 < n) (hk : k < n) :
    ((k + c) % n + (n - c % n)) % n = k := by
  rw [Nat.mod_add_mod]
  have h1 := Nat.div_add_mod c n
  have h2 : c % n < n := Nat.mod_lt _ hn
  have h3 : k + c + (n - c % n) = k + n * (c / n) + n := by omega
  rw [h3, Nat.add_mod_right, Nat.mul_comm, Nat.add_mul_mod_self_right]
  exact Nat.mod_eq_of_lt hk

/-- Right inverse for the index rotation `k ↦ (k + c) % n`. -/
theorem rot_right_inv (n c j : ℕ) (hn : 0 < n) (hj : j < n) :
    ((j + (n - c % n)) % n + c) % n = j := by
  rw [Nat.mod_add_mod]
  have h1 := Nat.div_add_mod c n
  have h2 : c % n < n := Nat.mod_lt _ hn
  have h3 : j + (n - c % n) + c = j + n * (c / n) + n := by omega
  rw [h3, Nat.add_mod_right, Nat.mul_comm, Nat.add_mul_mod_self_right]
  exact Nat.mod_eq_of_lt hj

/-- Rotating (`np.roll`-ing) a spectrum by `c` bins before the inverse DFT
multiplies output sample `m` by the unit phasor `expw n (-(m c))`.  This is
the modulation that the notebook's un-undone `fftshift` imprints on its
output. -/
theorem idft_rot (n c : ℕ) (v : ℕ → ℂ) (m : ℕ) :
    idft n (fun k => v ((k + c) % n)) m = expw n (-((m : ℤ) * c)) * idft n v m := by
  rcases Nat.eq_zero_or_pos n with h0 | hn
  · subst h0; simp [idft]
  · have h : ∑ k ∈ range n, v ((k + c) % n) * expw n ((k : ℤ) * m)
        = ∑ j ∈ range n, expw n (-((m : ℤ) * c)) * (v j * expw n ((j : ℤ) * m)) := by
      refine Finset.sum_nbij' (fun k => (k + c) % n) (fun j => (j + (n - c % n)) % n)
        (fun k hk => Finset.mem_range.mpr (Nat.mod_lt _ hn))
        (fun j hj => Finset.mem_range.mpr (Nat.mod_lt _ hn))
        (fun k hk => rot_left_inv n c k hn (Finset.mem_range.mp hk))
        (fun j hj => rot_right_inv n c j hn (Finset.mem_range.mp hj))
        (fun k hk => ?_)
      have hq := Nat.div_add_mod (k + c) n
      rw [show expw n (-((m : ℤ) * c)) * (v ((k + c) % n) * expw n ((((k + c) % n : ℕ) : ℤ) * m))
          = v ((k + c) % n) * (expw n (-((m : ℤ) * c)) * expw n ((((k + c) % n : ℕ) : ℤ) * m)) by ring,
        ← expw_add]
      congr 1
      apply expw_congr
      refine ⟨(m : ℤ) * ((k + c) / n : ℕ), ?_⟩
      have hq' : (n : ℤ) * (((k + c) / n : ℕ) : ℤ) + (((k + c) % n : ℕ) : ℤ)
          = (k : ℤ) + c := by exact_mod_cast hq
      linear_combination (-(m : ℤ)) * hq'
    rw [idft, idft, h, ← Finset.mul_sum, mul_div_assoc]

/-- The spec-side pipeline (shift undone before the inverse transform) equals
the implemented pipeline modulated by `expw n (-(m · (n/2)))` at output sample
`m`. -/
theorem spec_rot (w : ℕ → ℝ) (n px : ℕ) (x : ℕ → ℂ) (m : ℕ) :
    bandlimit_row_spec w n px x m
      = expw n (-((m : ℤ) * ((n / 2 : ℕ) : ℤ))) * bandlimit_row w n px x m := by
  rw [bandlimit_row_spec, bandlimit_row]
  exact idft_rot n (n / 2)
    (fun k' => ((w k' : ℝ) : ℂ) * dft n (rowPad px x) (fftshift_idx n k')) m

/-- The implemented pipeline equals the spec-side pipeline times the
unit-modulus factor `expw n (m · (n/2))`. -/
theorem code_phase_spec (w : ℕ → ℝ) (n px : ℕ) (x : ℕ → ℂ) (m : ℕ) :
    bandlimit_row w n px x m
      = expw n ((m : ℤ) * ((n / 2 : ℕ) : ℤ)) * bandlimit_row_spec w n px x m := by
  rw [spec_rot, ← mul_assoc, ← expw_add,
    show ((m : ℤ) * ((n / 2 : ℕ) : ℤ) + -((m : ℤ) * ((n / 2 : ℕ) : ℤ))) = 0 by ring,
    expw_zero, one_mul]

/-- With an all-ones mask the implemented pipeline returns the padded input
row modulated by `expw n (m · (n/2))` — the round trip is the identity only
up to that factor. -/
theorem bandlimit_allones (n px : ℕ) (x : ℕ → ℂ) (m : ℕ) (_hn : 0 < n) (hm : m < n) :
    bandlimit_row (fun _ => 1) n px x m
      = expw n ((m : ℤ) * ((n / 2 : ℕ) : ℤ)) * rowPad px x m := by
  rw [bandlimit_row]
  have h1 : (fun k => (((1 : ℝ) : ℂ)) * dft n (rowPad px x) (fftshift_idx n k))
      = fun k => dft n (rowPad px x) ((k + (n - n / 2)) % n) := by
    funext k
    rw [fftshift_idx]
    simp
  rw [h1, idft_rot, idft_dft n (rowPad px x) m hm]
  congr 1
  apply expw_congr
  have h2 : n / 2 ≤ n := Nat.div_le_self n 2
  refine ⟨-(m : ℤ), ?_⟩
  have h3 : ((n - n / 2 : ℕ) : ℤ) = (n : ℤ) - ((n / 2 : ℕ) : ℤ) := by
    exact_mod_cast Int.ofNat_sub h2
  rw [h3]
  ring

/-- On an even transform size `2t` the modulation factor at output sample `m`
is exactly `(-1)^m`. -/
theorem expw_even_half (t m : ℕ) (ht : 0 < t) :
    expw (2 * t) ((m : ℤ) * (t : ℤ)) = (-1) ^ m := by
  rw [expw]
  have ht' : ((t : ℂ)) ≠ 0 := Nat.cast_ne_zero.mpr ht.ne'
  have h : 2 * (Real.pi : ℂ) * Complex.I * (((m : ℤ) * (t : ℤ) : ℤ) : ℂ) / ((2 * t : ℕ) : ℂ)
      = (m : ℕ) * ((Real.pi : ℂ) * Complex.I) := by
    push_cast
    field_simp
    ring
  rw [h, Complex.exp_nat_mul, Complex.exp_pi_mul_I]

/-- Unit-modulus of every phasor. -/
theorem expw_abs (n : ℕ) (t : ℤ) : Complex.abs (expw n t) = 1 := by
  rw [expw, show 2 * (Real.pi : ℂ) * Complex.I * (t : ℂ) / (n : ℂ)
      = ((2 * Real.pi * (t : ℝ) / (n : ℝ) : ℝ) : ℂ) * Complex.I by push_cast; ring]
  exact Complex.abs_exp_ofReal_mul_I _

/-- Concrete phasor value: `expw 2 1 = -1`. -/
theorem expw_two_one : expw 2 1 = -1 := by
  rw [expw, show 2 * (Real.pi : ℂ) * Complex.I * ((1 : ℤ) : ℂ) / ((2 : ℕ) : ℂ)
      = (Real.pi : ℂ) * Complex.I by push_cast; ring]
  exact Complex.exp_pi_mul_I

/-- Concrete phasor value: `expw 2 (-1) = -1`. -/
theorem expw_two_neg_one : expw 2 (-1) = -1 := by
  rw [expw, show 2 * (Real.pi : ℂ) * Complex.I * ((-1 : ℤ) : ℂ) / ((2 : ℕ) : ℂ)
      = -((Real.pi : ℂ) * Complex.I) by push_cast; ring]
  rw [Complex.exp_neg, Complex.exp_pi_mul_I]
  norm_num

/-- Concrete window values for `n_fft = 2`: the one-point `hann(1)` sub-window
placed at index 0 (scipy returns `[1.0]` for `hann(1)`). -/
theorem hann2_zero : hannWindowVec 2 0 = 1 := by
  norm_num [hannWindowVec, hannCoef]

/-- Concrete window values for `n_fft = 2`: index 1 lies outside the
sub-window and is zero. -/
theorem hann2_one : hannWindowVec 2 1 = 0 := by
  norm_num [hannWindowVec]

/-- Concrete transform value of the shifted impulse row at bin 1. -/
theorem dft2_imp_one : dft 2 (rowPad 2 xImp) 1 = -1 := by
  rw [dft, Finset.sum_range_succ, Finset.sum_range_succ, Finset.sum_range_zero]
  norm_num [rowPad, xImp]
  exact expw_two_neg_one

/-- Concrete value of the implemented pipeline on the impulse row at
`n_fft = 2`, output sample 1. -/
theorem code2_val : bandlimit_row (hannWindowVec 2) 2 2 xImp 1 = -(1 / 2) := by
  rw [bandlimit_row, idft, Finset.sum_range_succ, Finset.sum_range_succ,
    Finset.sum_range_zero]
  norm_num [fftshift_idx, hann2_zero, hann2_one, expw_zero, expw_two_one, dft2_imp_one]

/-- Concrete value of the spec-side pipeline (shift undone) on the impulse
row at `n_fft = 2`, output sample 1. -/
theorem spec2_val : bandlimit_row_spec (hannWindowVec 2) 2 2 xImp 1 = 1 / 2 := by
  rw [bandlimit_row_spec, idft, Finset.sum_range_succ, Finset.sum_range_succ,
    Finset.sum_range_zero]
  norm_num [ifftshift_idx, fftshift_idx, hann2_zero, hann2_one, expw_zero,
    expw_two_one, dft2_imp_one]

/-- C1 (counterexample): the claim says the center-shift is undone before the
inverse transform, i.e. that the implemented pipeline computes what the
unshifted-order pipeline computes.  At the concrete impulse row with
`n_fft = 2` the implemented output sample (`-1/2`) differs from the
unshifted-order output sample (`1/2`), so the inverse transform does not
operate on the spectrum in its original frequency order. -/
theorem C1_counterexample :
    bandlimit_row (hannWindowVec 2) 2 2 xImp 1
      ≠ bandlimit_row_spec (hannWindowVec 2) 2 2 xImp 1 := by
  rw [code2_val, spec2_val]
  norm_num

/-- C1 (amended): the center-shift applied to each row's spectrum is NOT
undone before the inverse transform — the inverse DFT is applied directly to
the shifted masked spectrum — and consequently each output sample of the
implemented pipeline equals the unshifted-order (spec) pipeline's sample
multiplied by the unit-modulus phase factor `exp(2πi·m·⌊n_fft/2⌋/n_fft)`. -/
theorem C1_shift_not_undone (w : ℕ → ℝ) (n px : ℕ) (x : ℕ → ℂ) (m : ℕ) :
    bandlimit_row w n px x m
      = expw n ((m : ℤ) * ((n / 2 : ℕ) : ℤ)) * bandlimit_row_spec w n px x m :=
  code_phase_spec w n px x m

/-- C2 (counterexample): with the mask replaced by an all-ones vector, the
pipeline as implemented does not reproduce the original row values within
relative error `1e-9`: on the impulse row `[0, 1]` with `fft_size = 2` the
round trip returns `-1` at sample 1 where the input is `1` (relative error
2). -/
theorem C2_counterexample :
    ¬ (Complex.abs (bandlimit_row (fun _ => 1) 2 2 xImp 1 - xImp 1)
        < 1 / 10 ^ 9 * Complex.abs (xImp 1)) := by
  have h := bandlimit_allones 2 2 xImp 1 (by norm_num) (by norm_num)
  norm_num [rowPad, xImp, expw_two_one] at h
  have h2 : Complex.abs (bandlimit_row (fun _ => 1) 2 2 xImp 1 - xImp 1) = 2 := by
    rw [h, show ((-1 : ℂ) - xImp 1) = ((-2 : ℝ) : ℂ) by norm_num [xImp],
      Complex.abs_ofReal]
    norm_num
  have h3 : Complex.abs (xImp 1) = 1 := by
    norm_num [xImp]
  rw [h2, h3]
  norm_num

/-- C2 (amended): with an all-ones mask and `fft_size ≥` the column count,
the pipeline reproduces each original row value only up to the per-sample
unit-modulus factor `exp(2πi·m·⌊n_fft/2⌋/n_fft)` left behind by the un-undone
center shift ( `(-1)^m` for even `fft_size`); in particular the magnitudes
are reproduced exactly, the values themselves are not. -/
theorem C2_roundtrip_modulated (n px : ℕ) (x : ℕ → ℂ) (m : ℕ)
    (hn : 0 < n) (hpx : px ≤ n) (hm : m < px) :
    bandlimit_row (fun _ => 1) n px x m
        = expw n ((m : ℤ) * ((n / 2 : ℕ) : ℤ)) * x m ∧
    Complex.abs (bandlimit_row (fun _ => 1) n px x m) = Complex.abs (x m) := by
  have h := bandlimit_allones n px x m hn (lt_of_lt_of_le hm hpx)
  simp only [rowPad, if_pos hm] at h
  exact ⟨h, by rw [h, map_mul, expw_abs, one_mul]⟩

/-- Witness for `C2_roundtrip_modulated` at the concrete impulse row,
`fft_size = 2`, sample 1. -/
theorem C2_witness : 0 < 2 ∧ 2 ≤ 2 ∧ 1 < 2 ∧
    (bandlimit_row (fun _ => 1) 2 2 xImp 1
        = expw 2 (((1 : ℕ) : ℤ) * ((2 / 2 : ℕ) : ℤ)) * xImp 1 ∧
     Complex.abs (bandlimit_row (fun _ => 1) 2 2 xImp 1) = Complex.abs (xImp 1)) :=
  ⟨by norm_num, by norm_num, by norm_num,
    C2_roundtrip_modulated 2 2 xImp 1 (by norm_num) (by norm_num) (by norm_num)⟩

/-- C6 (counterexample): for a 1 × 4 input matrix and `fft_size = 2 < 4`
columns, the filter does not fail at all — it returns a result — so it does
not fail with `InvalidParameterError` (no such validation, or error kind,
exists in the source). -/
theorem C6_counterexample :
    (apply_band_limit_window 2 M14).isOk = true ∧ 2 < M14.cols :=
  ⟨rfl, by norm_num [M14]⟩

/-- C6 (amended): the source performs no `fft_size` validation and defines no
`InvalidParameterError`; the pipeline fails only for `fft_size = 0` (where
`np.fft.fft` raises `ValueError`) and returns a result for every
`fft_size ≥ 1`, including every `fft_size` smaller than the column count; in
particular for valid inputs (`fft_size ≥ columns`, `fft_size ≥ 1`) no failure
occurs. -/
theorem C6_no_validation (n : ℕ) (M : CMatrix) :
    (apply_band_limit_window n M).isOk = true ↔ n ≠ 0 := by
  by_cases h : n = 0 <;>
    simp [apply_band_limit_window, h, Except.isOk, Except.toBool]

/-- C7 (counterexample): a result is returned for `fft_size = 1` on a 1 × 4
matrix, but with 1 column instead of the input's 4 — the shape invariant
fails for `fft_size` smaller than the column count. -/
theorem C7_counterexample :
    Except.map CMatrix.cols (apply_band_limit_window 1 M14) = Except.ok 1 ∧
    M14.cols = 4 :=
  ⟨rfl, rfl⟩

/-- C7 (amended): whenever `fft_size ≥ 1` and `fft_size ≥` the input's column
count (the filter's stated precondition), the returned result has exactly the
input's shape; for smaller positive `fft_size` the result instead has
`min columns fft_size = fft_size` columns, because `np.fft.fft` truncates each
row to `fft_size` samples and the final crop keeps `min` of the two widths. -/
theorem C7_shape (M : CMatrix) (n : ℕ) (hn : 0 < n) (hc : M.cols ≤ n) :
    ∃ R, apply_band_limit_window n M = Except.ok R ∧
      R.rows = M.rows ∧ R.cols = M.cols := by
  rw [apply_band_limit_window, if_neg hn.ne']
  exact ⟨_, rfl, rfl, min_eq_left hc⟩

/-- Witness for `C7_shape` on the concrete 1 × 4 matrix with `fft_size = 4`. -/
theorem C7_witness : 0 < 4 ∧ M14.cols ≤ 4 ∧
    (∃ R, apply_band_limit_window 4 M14 = Except.ok R ∧
      R.rows = M14.rows ∧ R.cols = M14.cols) :=
  ⟨by norm_num, by norm_num [M14], C7_shape M14 4 (by norm_num) (by norm_num [M14])⟩

/-- C9: the window vector is exactly zero at every index outside
`[n/4, n/4 + n/2)` (in particular at every index at or beyond `n_fft`,
matching its length-`n_fft` support), and at index `n/4 + j` for `j < n/2` it
holds the symmetric Hann value `0.5 - 0.5·cos(2πj/(M-1))` with `M = n/2`; the
embedding is a pure function of `n`, constructed once and immutable, matching
the source which never writes to `hann_window` after line 185. -/
theorem C9_window (n k j : ℕ) (hM : 2 ≤ n / 2) :
    ((k < n / 4 ∨ n / 4 + n / 2 ≤ k) → hannWindowVec n k = 0) ∧
    (j < n / 2 → hannWindowVec n (n / 4 + j)
        = 0.5 - 0.5 * Real.cos (2 * Real.pi * j / (((n / 2 : ℕ) : ℝ) - 1))) := by
  constructor
  · intro hk
    rw [hannWindowVec, if_neg (by omega)]
  · intro hj
    rw [hannWindowVec, if_pos (by omega), hannCoef, if_neg (by omega)]
    have harg : n / 4 + j - n / 4 = j := by omega
    rw [harg]

/-- Witness for `C9_window` at the notebook's `n_fft = 16384`, `k = 0`,
`j = 0`. -/
theorem C9_witness : 2 ≤ 16384 / 2 ∧
    ((((0 : ℕ) < 16384 / 4 ∨ 16384 / 4 + 16384 / 2 ≤ 0) → hannWindowVec 16384 0 = 0) ∧
     ((0 : ℕ) < 16384 / 2 → hannWindowVec 16384 (16384 / 4 + 0)
        = 0.5 - 0.5 * Real.cos (2 * Real.pi * (0 : ℕ) / (((16384 / 2 : ℕ) : ℝ) - 1)))) :=
  ⟨by norm_num, C9_window 16384 0 0 (by norm_num)⟩

/-- C10: for every even transform size, each output sample of the implemented
pipeline (inverse transform applied directly to the center-shifted masked
spectrum) equals `(-1)^m` times the corresponding sample of the specified
pipeline (shift undone before the inverse transform); the factor has unit
modulus, so every sample magnitude — and hence every intensity display — is
identical between the two. -/
theorem C10_refinement (n px : ℕ) (x : ℕ → ℂ) (m : ℕ) (he : Even n) :
    bandlimit_row (hannWindowVec n) n px x m
        = (-1) ^ m * bandlimit_row_spec (hannWindowVec n) n px x m ∧
    Complex.abs (bandlimit_row (hannWindowVec n) n px x m)
        = Complex.abs (bandlimit_row_spec (hannWindowVec n) n px x m) := by
  rcases he with ⟨t, ht⟩
  rcases Nat.eq_zero_or_pos t with ht0 | htpos
  · have hn0 : n = 0 := by omega
    subst hn0
    constructor
    · simp [bandlimit_row, bandlimit_row_spec, idft]
    · simp [bandlimit_row, bandlimit_row_spec, idft]
  · have hn2 : n = 2 * t := by omega
    subst hn2
    have hphase := code_phase_spec (hannWindowVec (2 * t)) (2 * t) px x m
    have harg : ((m : ℤ) * ((2 * t / 2 : ℕ) : ℤ)) = (m : ℤ) * (t : ℤ) := by
      have : (2 * t) / 2 = t := by omega
      rw [this]
    rw [harg, expw_even_half t m htpos] at hphase
    refine ⟨hphase, ?_⟩
    rw [hphase, map_mul, map_pow]
    simp

/-- Witness for `C10_refinement` at the concrete impulse row, `n_fft = 2`,
sample 1. -/
theorem C10_witness : Even 2 ∧
    (bandlimit_row (hannWindowVec 2) 2 2 xImp 1
        = (-1) ^ 1 * bandlimit_row_spec (hannWindowVec 2) 2 2 xImp 1 ∧
     Complex.abs (bandlimit_row (hannWindowVec 2) 2 2 xImp 1)
        = Complex.abs (bandlimit_row_spec (hannWindowVec 2) 2 2 xImp 1)) :=
  ⟨by decide, C10_refinement 2 2 xImp 1 (by decide)⟩

/-- C3 (counterexample): a file whose 8 bytes at offset 236 are ASCII `'A'`s
— not a parseable decimal integer — is read successfully: the reader never
reads, let alone parses, the field at offset 236, so no `FormatError`
(`ValueError`) arises from it. -/
theorem C3_counterexample :
    parseAsciiInt (readBytes fGood 236 8) = none ∧
    (read_alospalsar_image dec0 fGood).isOk = true :=
  ⟨rfl, rfl⟩

/-- C3 (amended): the reader seeks to offset 236 but never reads there; the
bytes at offsets 236-243 are completely ignored — two files of equal size
agreeing everywhere outside 236-243 produce identical reader results — and no
failure can arise from that field.  The record stride is computed solely from
the pixel count as `412 + 8 · pixel_count`. -/
theorem C3_field_236_unread (dec : ℕ → ℕ → ℕ → ℕ → ℝ) (f g : FileData)
    (hsz : f.size = g.size)
    (hb : ∀ i, ¬ (236 ≤ i ∧ i < 244) → f.byte i = g.byte i) :
    read_alospalsar_image dec f = read_alospalsar_image dec g := by
  have h248 : readBytes f 248 8 = readBytes g 248 8 := by
    rw [readBytes, readBytes, hsz]
    exact List.map_congr_left fun i _ => hb _ (by omega)
  have hflt : fltAt dec f.byte = fltAt dec g.byte := by
    funext j
    rw [fltAt, fltAt, hb _ (by omega), hb _ (by omega), hb _ (by omega),
      hb _ (by omega)]
  unfold read_alospalsar_image readerRun
  rw [h248, hsz, hflt]

/-- Witness for `C3_field_236_unread` on two concrete files differing only at
offset 236. -/
theorem C3_witness : fEmpty.size = fEmpty'.size ∧
    read_alospalsar_image dec0 fEmpty = read_alospalsar_image dec0 fEmpty' :=
  ⟨rfl, C3_field_236_unread dec0 fEmpty fEmpty' rfl (fun i hi => by
    show (0 : ℕ) = if i = 236 then 9 else 0
    rw [if_neg (by omega)])⟩

/-- C4: for every file whose pixel-count field parses (to `p`, with a
nonnegative record size) but whose payload after the data start offset 720 is
shorter than `record_length * 18432 = (412 + 8p) * 18432` bytes, the reader
fails with the truncated-file error (`struct.error` from `struct.unpack`, the
spec's `TruncatedFileError`), a failure kind distinct from the header-parse
`ValueError` (the spec's `FormatError`), and returns no partial matrix. -/
theorem C4_truncated (dec : ℕ → ℕ → ℕ → ℕ → ℝ) (f : FileData) (p : ℤ)
    (hp : parseAsciiInt (readBytes f 248 8) = some p)
    (hp0 : 0 ≤ 412 + p * 8)
    (hlen : ((f.size - 720 : ℕ) : ℤ) < (412 + p * 8) * 18432) :
    read_alospalsar_image dec f = Except.error PyErr.structError ∧
    PyErr.structError ≠ PyErr.valueError := by
  have hnn : ¬ ((412 + p * 8) * 18432 < 0) :=
    not_lt.mpr (mul_nonneg hp0 (by norm_num))
  refine ⟨?_, by decide⟩
  unfold read_alospalsar_image readerRun
  simp only [hp]
  rw [if_neg hnn, if_pos hlen]

/-- Witness for `C4_truncated` on the concrete 720-byte file (valid header
fields, empty payload). -/
theorem C4_witness : parseAsciiInt (readBytes fTrunc 248 8) = some 0 ∧
    (0 : ℤ) ≤ 412 + 0 * 8 ∧
    ((fTrunc.size - 720 : ℕ) : ℤ) < (412 + 0 * 8) * 18432 ∧
    (read_alospalsar_image dec0 fTrunc = Except.error PyErr.structError ∧
      PyErr.structError ≠ PyErr.valueError) :=
  ⟨rfl, by norm_num, by norm_num [fTrunc],
    C4_truncated dec0 fTrunc 0 rfl (by norm_num) (by norm_num [fTrunc])⟩

/-- C5 (counterexample): on the concrete empty file the reader's operation
trace (here the parse-failure exit path) contains no close: the handle is not
closed on this exit path. -/
theorem C5_counterexample : FOp.close ∉ (readerRun dec0 fEmpty).1 := by
  decide

/-- C5 (amended): the reader never closes the file handle on any exit path —
it neither calls `close` nor uses a `with` block, so the handle is left open
on success, on header-parse failure and on truncated-file failure alike
(release is left to the garbage collector). -/
theorem C5_never_closed (dec : ℕ → ℕ → ℕ → ℕ → ℝ) (f : FileData) :
    FOp.close ∉ (readerRun dec f).1 := by
  unfold readerRun
  rcases hp : parseAsciiInt (readBytes f 248 8) with _ | p <;> simp only [hp]
  · simp
  · split_ifs <;> simp

/-- C8: for every well-formed file — pixel-count field at offset 248 parsing
to `p ≥ 0` and at least `record_length * 18432 = (412 + 8p) * 18432` payload
bytes after the data start offset 720 — the reader returns a matrix of shape
exactly `(18432, p)`, and entry `(i, k)` is the complex number whose real
part is the (abstract big-endian float32) decode of the 4 bytes at offset
`720 + i·record_length + 412 + 8k` (column `2k` of line `i`'s post-prefix
sample data) and whose imaginary part is the decode of the following 4 bytes
(column `2k + 1`). -/
theorem C8_shape_deinterleave (dec : ℕ → ℕ → ℕ → ℕ → ℝ) (f : FileData) (p : ℤ)
    (hp : parseAsciiInt (readBytes f 248 8) = some p)
    (hp0 : 0 ≤ p)
    (hlen : (412 + p * 8) * 18432 ≤ ((f.size - 720 : ℕ) : ℤ)) :
    ∃ M, read_alospalsar_image dec f = Except.ok M ∧
      M.rows = 18432 ∧ (M.cols : ℤ) = p ∧
      ∀ i k : ℕ, i < 18432 → (k : ℤ) < p →
        M.entry i k
          = ((dec (f.byte (720 + i * (412 + 8 * p.toNat) + 412 + 8 * k))
                (f.byte (720 + i * (412 + 8 * p.toNat) + 412 + 8 * k + 1))
                (f.byte (720 + i * (412 + 8 * p.toNat) + 412 + 8 * k + 2))
                (f.byte (720 + i * (412 + 8 * p.toNat) + 412 + 8 * k + 3)) : ℝ) : ℂ)
            + ((dec (f.byte (720 + i * (412 + 8 * p.toNat) + 412 + 8 * k + 4))
                (f.byte (720 + i * (412 + 8 * p.toNat) + 412 + 8 * k + 5))
                (f.byte (720 + i * (412 + 8 * p.toNat) + 412 + 8 * k + 6))
                (f.byte (720 + i * (412 + 8 * p.toNat) + 412 + 8 * k + 7)) : ℝ) : ℂ)
              * Complex.I := by
  have hnn : ¬ ((412 + p * 8) * 18432 < 0) :=
    not_lt.mpr (mul_nonneg (by omega) (by norm_num))
  have hnl : ¬ (((f.size - 720 : ℕ) : ℤ) < (412 + p * 8) * 18432) :=
    not_lt.mpr hlen
  refine ⟨CMatrix.mk 18432 (((412 + p * 8).toNat / 4 - 103) / 2)
      (fun i k =>
        (fltAt dec f.byte (i * ((412 + p * 8).toNat / 4) + 103 + 2 * k) : ℝ) +
          (fltAt dec f.byte (i * ((412 + p * 8).toNat / 4) + 103 + 2 * k + 1) : ℝ)
            * Complex.I),
    ?_, rfl, ?_, ?_⟩
  · unfold read_alospalsar_image readerRun
    simp only [hp]
    rw [if_neg hnn, if_neg hnl]
  · show ((((412 + p * 8).toNat / 4 - 103) / 2 : ℕ) : ℤ) = p
    omega
  · intro i k hi hk
    have hnc : (412 + p * 8).toNat / 4 = 103 + 2 * p.toNat := by omega
    show (fltAt dec f.byte (i * ((412 + p * 8).toNat / 4) + 103 + 2 * k) : ℂ) +
        (fltAt dec f.byte (i * ((412 + p * 8).toNat / 4) + 103 + 2 * k + 1) : ℝ)
          * Complex.I = _
    rw [hnc]
    unfold fltAt
    have e0 : 720 + 4 * (i * (103 + 2 * p.toNat) + 103 + 2 * k)
        = 720 + i * (412 + 8 * p.toNat) + 412 + 8 * k := by ring
    have e1 : 720 + 4 * (i * (103 + 2 * p.toNat) + 103 + 2 * k + 1)
        = 720 + i * (412 + 8 * p.toNat) + 412 + 8 * k + 4 := by ring
    rw [e0, e1]

/-- Witness for `C8_shape_deinterleave` on the concrete complete one-pixel
product file. -/
theorem C8_witness : parseAsciiInt (readBytes fGood1 248 8) = some 1 ∧
    (0 : ℤ) ≤ 1 ∧ (412 + 1 * 8) * 18432 ≤ ((fGood1.size - 720 : ℕ) : ℤ) ∧
    (read_alospalsar_image dec0 fGood1).isOk = true := by
  refine ⟨rfl, by norm_num, by norm_num [fGood1], ?_⟩
  obtain ⟨M, hM, -, -, -⟩ :=
    C8_shape_deinterleave dec0 fGood1 1 rfl (by norm_num) (by norm_num [fGood1])
  rw [read_alospalsar_image] at hM ⊢
  rw [hM]
  rfl
